import Mathlib

/-!
Verification of the upload orchestration of `react-file-uploaders`.

The embedded code is the Dropzone-based uploader component
(`DropzoneFileUploader`, the second document inside `src/src/app/uppy/page.tsx`
of this checkout, identical to the component served at `/dropzone`), together
with the storage-key handling of the backend route `src/src/app/api/upload/route.ts`.

The component keeps an array of tracked files (`FileWithPreview`), validates
candidate files on drop, and on `handleUpload` starts one transfer per pending
file via `uploadFile`, which performs the signed-URL exchange and an
`XMLHttpRequest` PUT.  The asynchronous behaviour of a batch is modelled as a
small-step machine over interleaved callback events (`Ev`), with the network
fate of each file's transfer recorded in an environment field (`Env`):

* `uploadFile`'s promise settles as a rejection when the upload-target fetch is
  not ok (the `throw` in the `try` block propagates through the outer
  `catch (error) { throw error; }`), when `xhr.onerror` fires, or when
  `xhr.onload` sees a status other than 200 (`reject(new Error('Upload failed'))`).
* When the transfer returns 200 but the view-URL fetch fails, the
  `throw new Error('Failed to get view URL')` happens inside the `async`
  `xhr.onload` callback, not inside the promise executor's control flow, so the
  promise returned by `uploadFile` is never resolved nor rejected.  The same
  holds when `removeFile` calls `xhr.abort()`: aborting fires neither `onload`
  nor `onerror`.  Both situations are events that can never occur
  (`evValid` forbids `settleResolve`/`settleReject` for such files), so the
  `Promise.all` join in `handleUpload` never runs.

Machine integers do not occur (sizes are plain JS numbers used as integers,
progress is a JS float modelled as `ℚ`).
-/

namespace Uploader

/-- A candidate file as the browser reports it to `onDrop` / the dropzone
`validator`: declared filename, declared MIME type, declared size in bytes. -/
structure CandidateFile where
  name : String
  type : String
  size : Nat
deriving DecidableEq, Repr

/-- `const MAX_IMAGE_SIZE = 5 * 1024 * 1024` (5MB). -/
def MAX_IMAGE_SIZE : Nat := 5 * 1024 * 1024

/-- `const MAX_VIDEO_SIZE = 50 * 1024 * 1024` (50MB). -/
def MAX_VIDEO_SIZE : Nat := 50 * 1024 * 1024

/-- Whether `p` is a prefix of `s` (both as character lists); JS
`String.prototype.startsWith`. -/
def startsWithSeq : List Char → List Char → Bool
  | _, [] => true
  | [], _ :: _ => false
  | c :: cs, d :: ds => c == d && startsWithSeq cs ds

/-- Whether `p` is a suffix of `s`; JS `String.prototype.endsWith`. -/
def endsWithSeq (s p : List Char) : Bool := startsWithSeq s.reverse p.reverse

/-- `file.type.startsWith('image/')` — the only classification the component's
size checks perform. -/
def isImageType (t : String) : Bool := startsWithSeq t.data "image/".data

/-- `const maxSize = isImage ? MAX_IMAGE_SIZE : MAX_VIDEO_SIZE`, as computed in
`onDrop`, in the rejection-message switch, and in the dropzone `validator`:
any file whose MIME type does not start with `image/` gets the video limit. -/
def maxSizeFor (f : CandidateFile) : Nat :=
  if isImageType f.type then MAX_IMAGE_SIZE else MAX_VIDEO_SIZE

/-- `const maxSizeInMB = maxSize / (1024 * 1024)` (exact: both limits are
multiples of 1MB). -/
def maxSizeInMB (f : CandidateFile) : Nat := maxSizeFor f / (1024 * 1024)

/-- The custom `validator` passed to `useDropzone`: returns the
`(code, message)` pair `('file-too-large', 'File is larger than <L> MB')` when
the size exceeds the limit of the MIME-determined class, else `null`. -/
def sizeValidator (f : CandidateFile) : Option (String × String) :=
  if maxSizeFor f < f.size then
    some ("file-too-large", "File is larger than " ++ toString (maxSizeInMB f) ++ " MB")
  else none

/-- `onDrop`'s rendering of a `file-too-large` rejection:
`` `${file.name} is too large. Maximum size is ${maxSizeInMB}MB` ``. -/
def fileTooLargeMessage (f : CandidateFile) : String :=
  f.name ++ " is too large. Maximum size is " ++ toString (maxSizeInMB f) ++ "MB"

/-- The fields of a freshly accepted `FileWithPreview` that matter here:
the assigned id, the copied metadata, and whether a preview object URL was
materialised (`preview: isImage ? URL.createObjectURL(file) : undefined`). -/
structure FileWithPreview where
  id : String
  name : String
  type : String
  size : Nat
  preview : Bool
deriving DecidableEq, Repr

/-- `onDrop`'s processing of one accepted file.  `now` is the value of the
`Date.now()` call made while mapping over this file.  Returns `none` when the
size check `file.size > maxSize` rejects it (the `onError` message is
`fileTooLargeMessage`-like), otherwise the tracked record with
`` id: `${file.name}-${Date.now()}` ``. -/
def processAccepted (f : CandidateFile) (now : Nat) : Option FileWithPreview :=
  if maxSizeFor f < f.size then none
  else some { id := f.name ++ "-" ++ toString now, name := f.name, type := f.type,
              size := f.size, preview := isImageType f.type }

/-- The map/filter over `acceptedFiles` in `onDrop`: each accepted file is
processed with the `Date.now()` observed during its iteration; `null`
(oversize) entries are filtered out. -/
def onDropAccepted : List (CandidateFile × Nat) → List FileWithPreview
  | [] => []
  | (f, now) :: rest =>
    match processAccepted f now with
    | some fp => fp :: onDropAccepted rest
    | none => onDropAccepted rest

/-- Media classes of §4.1 of the design. -/
inductive MediaClass
  | image | video | unsupported
deriving DecidableEq, Repr

/-- `ACCEPTED_IMAGE_TYPES` keys. -/
def imageMimes : List String := ["image/jpeg", "image/png", "image/webp", "image/gif"]

/-- `ACCEPTED_VIDEO_TYPES` keys. -/
def videoMimes : List String := ["video/mp4", "video/quicktime", "video/x-msvideo", "video/webm"]

/-- `ACCEPTED_IMAGE_TYPES` extensions. -/
def imageExts : List String := [".jpg", ".jpeg", ".png", ".webp", ".gif"]

/-- `ACCEPTED_VIDEO_TYPES` extensions. -/
def videoExts : List String := [".mp4", ".mov", ".avi", ".webm"]

/-- The Validator's classification as the specification words it (for
comparison against the code): classify by declared MIME type and, when the
type matches neither allow-list (for example when it is empty), fall back to
filename-extension inspection.  The component's size checks do NOT implement
this fallback — that difference is what the refutation below exhibits. -/
def specMediaClassOf (f : CandidateFile) : MediaClass :=
  if imageMimes.contains f.type then .image
  else if videoMimes.contains f.type then .video
  else if imageExts.any (fun e => endsWithSeq f.name.data e.data) then .image
  else if videoExts.any (fun e => endsWithSeq f.name.data e.data) then .video
  else .unsupported

/-! ### The per-file state machine

`status: 'pending' | 'uploading' | 'success' | 'error'` of `FileWithPreview`. -/

/-- The `status` field of a tracked file. -/
inductive Status
  | pending | uploading | success | error
deriving DecidableEq, Repr

/-- The network fate awaiting one file's `uploadFile` call:
* `targetFail` — the POST to `/api/upload` returns non-ok (or the fetch
  throws); `uploadFile` rejects before the transfer starts;
* `transferNetError` — `xhr.onerror` fires; rejects;
* `transferBadStatus` — `xhr.onload` with `xhr.status ≠ 200`; rejects;
* `viewFail` — `xhr.status = 200` but the GET for the view URL fails; the
  `throw` inside the async `onload` leaves the promise forever unsettled;
* `done url` — transfer and view-URL exchange both succeed; resolves `url`. -/
inductive Env
  | targetFail
  | transferNetError
  | transferBadStatus
  | viewFail
  | done (url : String)
deriving DecidableEq, Repr

/-- One tracked file of the orchestration model.  `id`, `name`, `status`,
`uploadProgress` are the component's fields; the rest is bookkeeping needed to
state the claims: `env` is the transfer's fate, `started` records membership in
`handleUpload`'s captured `pendingFiles`, `settled` whether the `uploadFile`
promise has resolved or rejected, `aborted` whether `xhr.abort()` was called,
`removed` whether `removeFile` filtered the file out of the React state (the
captured closures keep running, so the model keeps the record), `pushedUrl`
the URL this file contributed to `uploadedUrls` (if any), and `noticed`
whether the per-file `onError('Failed to upload …')` fired for it. -/
structure OFile where
  id : String
  name : String
  status : Status
  uploadProgress : ℚ
  env : Env
  started : Bool
  settled : Bool
  aborted : Bool
  removed : Bool
  pushedUrl : Option String
  noticed : Bool
deriving DecidableEq, Repr

/-- The component/batch state: the file array, the `isUploading` flag, whether
`handleUpload` ran (`batchStarted`, used to model a single batch), whether its
`Promise.all` continuation ran (`joined`), the `uploadedUrls` accumulator,
the payload of `onUploadComplete` if it fired (`emitted`), the dialog `open`
flag, and the `onError` failure notices. -/
structure BatchState where
  files : List OFile
  isUploading : Bool
  batchStarted : Bool
  joined : Bool
  uploadedUrls : List String
  emitted : Option (List String)
  dialogOpen : Bool
  notices : List String
deriving DecidableEq, Repr

/-- The interleaved callback events of one orchestration session. -/
inductive Ev
  | startBatch
  | progress (id : String) (loaded total : Nat)
  | settleResolve (id : String) (url : String)
  | settleReject (id : String)
  | removeFile (id : String)
deriving DecidableEq, Repr

/-- `prev.find(f => f.id === fileId)`. -/
def findFile (s : BatchState) (fid : String) : Option OFile :=
  s.files.find? (fun f => f.id == fid)

/-- The files still in the React state array (removal filters them out). -/
def presentFiles (s : BatchState) : List OFile := s.files.filter (fun f => !f.removed)

/-- Whether every file captured by `handleUpload` has a settled promise — the
condition under which `await Promise.all(...)` returns. -/
def allStartedSettled (s : BatchState) : Bool :=
  s.files.all (fun f => !f.started || f.settled)

/-- The `Promise.all` continuation of `handleUpload`: when every started
file's promise has settled (and it has not run before), run
`if (uploadedUrls.length > 0) { onUploadComplete(uploadedUrls); setOpen(false); }`
and the `finally { setIsUploading(false) }`. -/
def maybeJoin (s : BatchState) : BatchState :=
  if s.joined then s
  else if allStartedSettled s then
    if s.uploadedUrls.isEmpty then
      { s with joined := true, isUploading := false }
    else
      { s with joined := true, isUploading := false,
               emitted := some s.uploadedUrls, dialogOpen := false }
  else s

/-- Apply an update to the files whose `id` matches, as
`prev.map(f => f.id === file.id ? … : f)` does. -/
def applyAt (fid : String) (g : OFile → OFile) (f : OFile) : OFile :=
  if f.id == fid then g f else f

/-- Marking a file as captured by `handleUpload` (it is in `pendingFiles`). -/
def startG (f : OFile) : OFile :=
  if !f.removed && f.status == Status.pending then { f with started := true } else f

/-- `const progress = (event.loaded / event.total) * 100`. -/
def progressValue (loaded total : Nat) : ℚ := (loaded : ℚ) / (total : ℚ) * 100

/-- The per-file effect of `xhr.upload.onprogress`: overwrite `uploadProgress`
with the freshly computed value (no maximum is kept) and set
`status: 'uploading'`; the `setFiles` map finds nothing when the file was
already removed. -/
def progressG (loaded total : Nat) (f : OFile) : OFile :=
  if f.removed then f
  else { f with uploadProgress := progressValue loaded total, status := Status.uploading }

/-- The per-file effect of `uploadFile` resolving `url`: the promise is now
settled, the url was pushed, and the `setFiles` map sets `status: 'success'`
(a no-op when the file was removed). -/
def resolveG (url : String) (f : OFile) : OFile :=
  { f with settled := true, pushedUrl := some url,
           status := if f.removed then f.status else Status.success }

/-- The per-file effect of `uploadFile` rejecting: settled, the
`` onError(`Failed to upload …`) `` notice fired, and `status: 'error'`
(a no-op when the file was removed). -/
def rejectG (f : OFile) : OFile :=
  { f with settled := true, noticed := true,
           status := if f.removed then f.status else Status.error }

/-- The per-file effect of `removeFile`: filtered out of the array, and
`xhr.abort()` called only when `status === 'uploading'`. -/
def removeG (f : OFile) : OFile :=
  if f.removed then f
  else { f with removed := true, aborted := f.aborted || f.status == Status.uploading }

/-- `handleUpload`: return early when the file array is empty; otherwise set
`isUploading`, capture `pendingFiles = files.filter(f => f.status === 'pending')`
(marked `started`), and fan out their transfers.  No status changes here: a
file's `status` becomes `'uploading'` only in `xhr.upload.onprogress`. -/
def stepStart (s : BatchState) : BatchState :=
  if (presentFiles s).isEmpty then { s with batchStarted := true }
  else
    maybeJoin { s with
      batchStarted := true, isUploading := true,
      files := s.files.map startG }

/-- `xhr.upload.onprogress` with `event.lengthComputable` for the file `fid`. -/
def stepProgress (s : BatchState) (fid : String) (loaded total : Nat) : BatchState :=
  { s with files := s.files.map (applyAt fid (progressG loaded total)) }

/-- Resolution of one file's `uploadFile` promise: `handleUpload`'s inner task
runs `uploadedUrls.push(url)` (unconditionally — even when the file was removed
meanwhile) and maps the file to `status: 'success'` (a no-op when removed),
then the join condition is re-checked. -/
def stepResolve (s : BatchState) (fid url : String) : BatchState :=
  maybeJoin { s with
    uploadedUrls := s.uploadedUrls ++ [url],
    files := s.files.map (applyAt fid (resolveG url)) }

/-- The `file.name` read by the rejection handler's `onError` call (from the
captured closure; names never change, so the current record's name agrees). -/
def rejectName (s : BatchState) (fid : String) : String :=
  match findFile s fid with
  | some f => f.name
  | none => ""

/-- Rejection of one file's `uploadFile` promise: the `catch` in
`handleUpload` maps the file to `status: 'error'` (a no-op when removed) and
calls `` onError(`Failed to upload ${file.name}`) `` regardless of removal,
then the join condition is re-checked. -/
def stepReject (s : BatchState) (fid : String) : BatchState :=
  maybeJoin { s with
    notices := s.notices ++ ["Failed to upload " ++ rejectName s fid],
    files := s.files.map (applyAt fid rejectG) }

/-- `removeFile`: abort the xhr only when `fileToRemove.xhr && status === 'uploading'`
(a file whose transfer is in flight but which has not yet received a progress
event still has `status: 'pending'` and is NOT aborted), filter the file out,
and reset `isUploading` when no present file is still uploading. -/
def stepRemove (s : BatchState) (fid : String) : BatchState :=
  let files' := s.files.map (applyAt fid removeG)
  { s with files := files',
           isUploading :=
             if (files'.filter (fun f => !f.removed)).any (fun f => f.status == Status.uploading)
             then s.isUploading else false }

/-- One callback event. -/
def step (s : BatchState) : Ev → BatchState
  | .startBatch => stepStart s
  | .progress fid loaded total => stepProgress s fid loaded total
  | .settleResolve fid url => stepResolve s fid url
  | .settleReject fid => stepReject s fid
  | .removeFile fid => stepRemove s fid

/-- Run a list of callback events in order. -/
def run (s : BatchState) : List Ev → BatchState
  | [] => s
  | e :: es => run (step s e) es

/-- Which events the code can actually produce in a state (one batch):
* `startBatch` at most once;
* a progress report only for a started, unsettled, unaborted file whose
  upload-target exchange did not fail, with a computable length
  (`0 < total`, `loaded ≤ total`);
* a resolution only for a started, unsettled, unaborted file whose fate is
  `done url` with that very url;
* a rejection only for a started, unsettled, unaborted file whose fate is a
  target failure, a transfer network error, or a non-200 status —
  NOT for `viewFail` (the async `throw` settles nothing) and NOT for an
  aborted file (`xhr.abort()` fires neither `onload` nor `onerror`);
* a removal only of a file still present. -/
def evValid (s : BatchState) : Ev → Bool
  | .startBatch => !s.batchStarted
  | .progress fid loaded total =>
    match findFile s fid with
    | some f => f.started && !f.settled && !f.aborted && !(f.env == Env.targetFail)
        && decide (0 < total) && decide (loaded ≤ total)
    | none => false
  | .settleResolve fid url =>
    match findFile s fid with
    | some f => f.started && !f.settled && !f.aborted && f.env == Env.done url
    | none => false
  | .settleReject fid =>
    match findFile s fid with
    | some f => f.started && !f.settled && !f.aborted &&
        (f.env == Env.targetFail || f.env == Env.transferNetError
          || f.env == Env.transferBadStatus)
    | none => false
  | .removeFile fid =>
    match findFile s fid with
    | some f => !f.removed
    | none => false

/-- A trace of callback events each of which is possible when it occurs. -/
def ValidFrom (s : BatchState) : List Ev → Bool
  | [] => true
  | e :: es => evValid s e && ValidFrom (step s e) es

/-- A freshly accepted tracked file with the given id, name and network fate:
`status: 'pending'`, `uploadProgress: 0`, nothing started or settled. -/
def initFile (fid nm : String) (env : Env) : OFile :=
  { id := fid, name := nm, status := Status.pending, uploadProgress := 0, env := env,
    started := false, settled := false, aborted := false, removed := false,
    pushedUrl := none, noticed := false }

/-- A batch of freshly accepted files described by `(id, name, fate)` triples. -/
def initFiles (l : List (String × String × Env)) : List OFile :=
  l.map fun x => initFile x.1 x.2.1 x.2.2

/-- The component state holding the given tracked files, before any upload:
dialog open, nothing uploading, no urls, no notices. -/
def initState (fs : List OFile) : BatchState :=
  { files := fs, isUploading := false, batchStarted := false, joined := false,
    uploadedUrls := [], emitted := none, dialogOpen := true, notices := [] }

end Uploader

namespace Uploader

/-! ### The storage key and its client-side re-derivation

The backend (`route.ts`, POST handler) signs a PUT for
`` Key: `uploads/${Date.now()}-${filename}` `` and returns the presigned URL.
The client re-derives the object key from that URL by string splitting
(`uploadFile`, `xhr.onload`):
`const key = uploadURL.split('?')[0].split('/uploads/')[1]` and requests
`` /api/upload?key=uploads/${key} ``.  Strings are modelled as `List Char`
and `String.prototype.split` (for a nonempty separator) is implemented below. -/

/-- Scan for the first occurrence of `sep`: `some (before, after)` where
`before` is the text preceding the occurrence and `after` the text following
it; `none` when `sep` does not occur.  (Only used with nonempty `sep`.) -/
def findSplit (sep : List Char) : List Char → Option (List Char × List Char)
  | [] => none
  | c :: cs =>
    if startsWithSeq (c :: cs) sep then some ([], (c :: cs).drop sep.length)
    else
      match findSplit sep cs with
      | some (p, r) => some (c :: p, r)
      | none => none

/-- Fuelled splitting worker; each recursive call strictly shortens the text,
so `length` fuel always suffices. -/
def splitSepFuel (sep : List Char) : Nat → List Char → List (List Char)
  | 0, s => [s]
  | fuel + 1, s =>
    match findSplit sep s with
    | none => [s]
    | some (p, r) => p :: splitSepFuel sep fuel r

/-- JS `s.split(sep)` for a nonempty separator. -/
def splitSep (sep s : List Char) : List (List Char) := splitSepFuel sep s.length s

/-- JS array indexing followed by template interpolation: a missing element is
`undefined` and interpolates as the text "undefined". -/
def jsIndex (xs : List (List Char)) (i : Nat) : List Char := (xs.get? i).getD "undefined".data

/-- The literal `"uploads/"` prefixed to keys by the backend and re-prefixed
by the client's `` `uploads/${key}` ``. -/
def uploadsDir : List Char := "uploads/".data

/-- The delimiter `'/uploads/'` the client splits the write URL on. -/
def uploadsMark : List Char := "/uploads/".data

/-- The storage key built by the backend (`route.ts` line 38):
`` `uploads/${Date.now()}-${filename}` ``, with the timestamp's decimal
rendering passed in as `ts`. -/
def mkStorageKey (ts fn : List Char) : List Char := uploadsDir ++ ts ++ '-' :: fn

/-- The textual shape of a presigned URL over `key` as the client sees it:
scheme+host, one `/`, the key (S3 keeps `/` in keys unencoded in the path),
`?`, and the signature query. -/
def mkUploadURL (host key query : List Char) : List Char := host ++ '/' :: (key ++ '?' :: query)

/-- The client's derivation of the object key it asks a view URL for:
`uploadURL.split('?')[0].split('/uploads/')[1]` re-prefixed with `uploads/`. -/
def deriveRequestKey (u : List Char) : List Char :=
  uploadsDir ++ jsIndex (splitSep uploadsMark (jsIndex (splitSep ['?'] u) 0)) 1

end Uploader

namespace Uploader

/-! ### Invariants of reachable batch states -/

/-- Facts that hold of every tracked file in every reachable state:
a file shown as `uploading` was started; an unsettled promise has contributed
no url and no failure notice; a settled, still-present file displays a
terminal status; the recorded progress is a percentage in `[0, 100]`. -/
structure FileInv (f : OFile) : Prop where
  uploadingStarted : f.status = Status.uploading → f.started = true
  unsettledClean : f.settled = false → f.pushedUrl = none ∧ f.noticed = false
  settledTerminal : f.removed = false → f.settled = true →
    f.status = Status.success ∨ f.status = Status.error
  progressBounds : 0 ≤ f.uploadProgress ∧ f.uploadProgress ≤ 100

/-- Facts that hold of every reachable batch state. -/
structure StateInv (s : BatchState) : Prop where
  nodupIds : (s.files.map OFile.id).Nodup
  fileInv : ∀ f ∈ s.files, FileInv f
  blockedNotJoined : (∃ f ∈ s.files, f.started = true ∧ f.settled = false) → s.joined = false
  notJoinedNoEmit : s.joined = false → s.emitted = none
  closedHasEmit : s.dialogOpen = false → ∃ u, s.emitted = some u
  emitEqUrls : ∀ u, s.emitted = some u → u = s.uploadedUrls ∧ u ≠ []
  noPushNoUrls : (∀ f ∈ s.files, f.pushedUrl = none) → s.uploadedUrls = []
  preBatch : s.batchStarted = false → s.joined = false ∧ ∀ f ∈ s.files, f.started = false

/-! ### Generic list lemmas -/

theorem find?_map_of_id (g : OFile → OFile) (hg : ∀ f, (g f).id = f.id)
    (l : List OFile) (fid : String) :
    (l.map g).find? (fun f => f.id == fid) = (l.find? (fun f => f.id == fid)).map g := by
  induction l with
  | nil => simp
  | cons a as ih =>
    simp only [List.map_cons, List.find?]
    rw [hg a]
    cases h : (a.id == fid) <;> simp [h, ih]

theorem map_id_of_id (g : OFile → OFile) (hg : ∀ f, (g f).id = f.id) (l : List OFile) :
    (l.map g).map OFile.id = l.map OFile.id := by
  induction l with
  | nil => rfl
  | cons a as ih => simp [hg a, ih]

theorem find?_unique {l : List OFile} {fid : String} {f f₂ : OFile}
    (hnd : (l.map OFile.id).Nodup) (hf : l.find? (fun x => x.id == fid) = some f)
    (hm : f₂ ∈ l) (hid : f₂.id = fid) : f₂ = f := by
  induction l with
  | nil => simp at hm
  | cons a as ih =>
    rw [List.map_cons, List.nodup_cons] at hnd
    rcases List.mem_cons.mp hm with rfl | hm₂
    · have hpa : (f₂.id == fid) = true := by simp [hid]
      rw [List.find?] at hf
      rw [hpa] at hf
      exact Option.some_injective _ hf
    · by_cases ha : (a.id == fid) = true
      · exfalso
        have : f₂.id ∈ as.map OFile.id := List.mem_map_of_mem _ hm₂
        rw [hid, ← beq_iff_eq.mp ha] at this
        exact hnd.1 this
      · rw [List.find?] at hf
        rw [Bool.not_eq_true] at ha
        rw [ha] at hf
        exact ih hnd.2 hf hm₂

theorem allStartedSettled_false_of_blocked {s : BatchState} {f : OFile}
    (hm : f ∈ s.files) (h1 : f.started = true) (h2 : f.settled = false) :
    allStartedSettled s = false := by
  rw [allStartedSettled]
  by_contra h
  rw [Bool.not_eq_false, List.all_eq_true] at h
  have := h f hm
  rw [h1, h2] at this
  simp at this

/-! ### Structural lemmas about the step functions -/

theorem maybeJoin_files (s : BatchState) : (maybeJoin s).files = s.files := by
  rw [maybeJoin]; split_ifs <;> rfl

theorem maybeJoin_of_blocked {s : BatchState} {f : OFile}
    (hm : f ∈ s.files) (h1 : f.started = true) (h2 : f.settled = false) :
    maybeJoin s = s := by
  rw [maybeJoin, allStartedSettled_false_of_blocked hm h1 h2]
  simp

theorem run_append (s : BatchState) (T1 T2 : List Ev) :
    run s (T1 ++ T2) = run (run s T1) T2 := by
  induction T1 generalizing s with
  | nil => rfl
  | cons e es ih => simp [run, ih]

theorem ValidFrom_append (s : BatchState) (T1 T2 : List Ev) :
    ValidFrom s (T1 ++ T2) = (ValidFrom s T1 && ValidFrom (run s T1) T2) := by
  induction T1 generalizing s with
  | nil => simp [ValidFrom, run]
  | cons e es ih => simp [ValidFrom, run, ih, Bool.and_assoc]

end Uploader

namespace Uploader

/-! ### Following one file through a trace -/

theorem applyAt_id (fid : String) (g : OFile → OFile) (hg : ∀ f, (g f).id = f.id) (f : OFile) :
    (applyAt fid g f).id = f.id := by
  rw [applyAt]; split_ifs <;> [exact hg f; rfl]

theorem startG_id (f : OFile) : (startG f).id = f.id := by
  rw [startG]; split_ifs <;> rfl

theorem progressG_id (loaded total : Nat) (f : OFile) : (progressG loaded total f).id = f.id := by
  rw [progressG]; split_ifs <;> rfl

theorem resolveG_id (url : String) (f : OFile) : (resolveG url f).id = f.id := rfl

theorem rejectG_id (f : OFile) : (rejectG f).id = f.id := rfl

theorem removeG_id (f : OFile) : (removeG f).id = f.id := by
  rw [removeG]; split_ifs <;> rfl

theorem findFile_eq_id {s : BatchState} {fid : String} {f : OFile}
    (hf : findFile s fid = some f) : f.id = fid := by
  simp only [findFile] at hf
  have h := List.find?_some hf
  simpa using h

theorem findFile_mem {s : BatchState} {fid : String} {f : OFile}
    (hf : findFile s fid = some f) : f ∈ s.files := by
  simp only [findFile] at hf
  exact List.mem_of_find?_eq_some hf

/-- How one file's record can evolve across a single reachable step: identity,
name and fate never change; `started`, `settled`, `removed`, `aborted` are
monotone; a `viewFail` file can never settle, push a url, or show a terminal
status; an aborted file is completely frozen apart from removal flags. -/
structure Tracks (f f' : OFile) : Prop where
  id_eq : f'.id = f.id
  name_eq : f'.name = f.name
  env_eq : f'.env = f.env
  started_mono : f.started = true → f'.started = true
  settled_mono : f.settled = true → f'.settled = true
  removed_mono : f.removed = true → f'.removed = true
  aborted_mono : f.aborted = true → f'.aborted = true
  viewFail_frozen : f.env = Env.viewFail →
    f'.settled = f.settled ∧ f'.pushedUrl = f.pushedUrl ∧
    (f'.status = f.status ∨ f'.status = Status.uploading)
  aborted_frozen : f.aborted = true →
    f'.settled = f.settled ∧ f'.pushedUrl = f.pushedUrl ∧
    f'.noticed = f.noticed ∧ f'.status = f.status

theorem tracks_rfl (f : OFile) : Tracks f f :=
  ⟨rfl, rfl, rfl, fun h => h, fun h => h, fun h => h, fun h => h,
   fun _ => ⟨rfl, rfl, Or.inl rfl⟩, fun _ => ⟨rfl, rfl, rfl, rfl⟩⟩

theorem tracks_trans {f f₁ f₂ : OFile} (t1 : Tracks f f₁) (t2 : Tracks f₁ f₂) : Tracks f f₂ := by
  refine ⟨t2.id_eq.trans t1.id_eq, t2.name_eq.trans t1.name_eq, t2.env_eq.trans t1.env_eq,
    fun h => t2.started_mono (t1.started_mono h),
    fun h => t2.settled_mono (t1.settled_mono h),
    fun h => t2.removed_mono (t1.removed_mono h),
    fun h => t2.aborted_mono (t1.aborted_mono h), ?_, ?_⟩
  · intro h
    obtain ⟨hs1, hp1, hst1⟩ := t1.viewFail_frozen h
    obtain ⟨hs2, hp2, hst2⟩ := t2.viewFail_frozen (t1.env_eq.trans h)
    refine ⟨hs2.trans hs1, hp2.trans hp1, ?_⟩
    rcases hst2 with h2 | h2
    · rcases hst1 with h1 | h1
      · exact Or.inl (h2.trans h1)
      · exact Or.inr (h2.trans h1)
    · exact Or.inr h2
  · intro h
    obtain ⟨hs1, hp1, hn1, hst1⟩ := t1.aborted_frozen h
    obtain ⟨hs2, hp2, hn2, hst2⟩ := t2.aborted_frozen (t1.aborted_mono h)
    exact ⟨hs2.trans hs1, hp2.trans hp1, hn2.trans hn1, hst2.trans hst1⟩

theorem tracks_startG (f : OFile) : Tracks f (startG f) := by
  rw [startG]
  split_ifs with h
  · exact ⟨rfl, rfl, rfl, fun _ => rfl, fun h => h, fun h => h, fun h => h,
      fun _ => ⟨rfl, rfl, Or.inl rfl⟩, fun _ => ⟨rfl, rfl, rfl, rfl⟩⟩
  · exact tracks_rfl f

theorem tracks_progressG {f : OFile} (loaded total : Nat) (hab : f.aborted = false) :
    Tracks f (progressG loaded total f) := by
  rw [progressG]
  split_ifs with h
  · exact tracks_rfl f
  · exact ⟨rfl, rfl, rfl, fun h => h, fun h => h, fun h => h, fun h => h,
      fun _ => ⟨rfl, rfl, Or.inr rfl⟩,
      fun hx => absurd hx (by rw [hab]; exact Bool.false_ne_true)⟩

theorem tracks_resolveG {f : OFile} (url : String) (henv : f.env = Env.done url)
    (hab : f.aborted = false) : Tracks f (resolveG url f) := by
  refine ⟨rfl, rfl, rfl, fun h => h, fun _ => rfl, fun h => h, fun h => h, ?_, ?_⟩
  · intro hx; rw [henv] at hx; cases hx
  · intro hx; rw [hab] at hx; cases hx

theorem tracks_rejectG {f : OFile} (henv : f.env ≠ Env.viewFail) (hab : f.aborted = false) :
    Tracks f (rejectG f) := by
  refine ⟨rfl, rfl, rfl, fun h => h, fun _ => rfl, fun h => h, fun h => h, ?_, ?_⟩
  · intro hx; exact absurd hx henv
  · intro hx; rw [hab] at hx; cases hx

theorem tracks_removeG (f : OFile) : Tracks f (removeG f) := by
  rw [removeG]
  split_ifs with h
  · exact tracks_rfl f
  · refine ⟨rfl, rfl, rfl, fun h => h, fun h => h, fun _ => rfl, ?_,
      fun _ => ⟨rfl, rfl, Or.inl rfl⟩, fun hx => ⟨rfl, rfl, rfl, rfl⟩⟩
    intro hx; simp [hx]

end Uploader

namespace Uploader

theorem findFile_maybeJoin (s : BatchState) (x : String) :
    findFile (maybeJoin s) x = findFile s x := by
  simp only [findFile, maybeJoin_files]

theorem findFile_stepStart (s : BatchState) (x : String) :
    findFile (stepStart s) x =
      if (presentFiles s).isEmpty then findFile s x else (findFile s x).map startG := by
  rw [stepStart]
  split_ifs with h
  · rfl
  · rw [findFile_maybeJoin]
    simp only [findFile]
    exact find?_map_of_id _ startG_id s.files x

theorem findFile_stepProgress (s : BatchState) (fid : String) (loaded total : Nat) (x : String) :
    findFile (stepProgress s fid loaded total) x =
      (findFile s x).map (applyAt fid (progressG loaded total)) := by
  simp only [stepProgress, findFile]
  exact find?_map_of_id _ (applyAt_id _ _ (progressG_id loaded total)) s.files x

theorem findFile_stepResolve (s : BatchState) (fid url : String) (x : String) :
    findFile (stepResolve s fid url) x = (findFile s x).map (applyAt fid (resolveG url)) := by
  rw [stepResolve, findFile_maybeJoin]
  simp only [findFile]
  exact find?_map_of_id _ (applyAt_id _ _ (resolveG_id url)) s.files x

theorem findFile_stepReject (s : BatchState) (fid : String) (x : String) :
    findFile (stepReject s fid) x = (findFile s x).map (applyAt fid rejectG) := by
  rw [stepReject, findFile_maybeJoin]
  simp only [findFile]
  exact find?_map_of_id _ (applyAt_id _ _ rejectG_id) s.files x

theorem findFile_stepRemove (s : BatchState) (fid : String) (x : String) :
    findFile (stepRemove s fid) x = (findFile s x).map (applyAt fid removeG) := by
  simp only [stepRemove, findFile]
  exact find?_map_of_id _ (applyAt_id _ _ removeG_id) s.files x

theorem applyAt_hit {fid : String} {f : OFile} (g : OFile → OFile) (h : f.id = fid) :
    applyAt fid g f = g f := by
  rw [applyAt, if_pos (by simp [h])]

theorem applyAt_miss {eid : String} {f : OFile} (g : OFile → OFile) (h : ¬f.id = eid) :
    applyAt eid g f = f := by
  rw [applyAt, if_neg (by simp [h])]

theorem step_track {s : BatchState} {e : Ev} {fid : String} {f : OFile}
    (hv : evValid s e = true) (hf : findFile s fid = some f) :
    ∃ f', findFile (step s e) fid = some f' ∧ Tracks f f' := by
  have hid : f.id = fid := findFile_eq_id hf
  cases e with
  | startBatch =>
    simp only [step]
    rw [findFile_stepStart]
    split_ifs with h
    · exact ⟨f, hf, tracks_rfl f⟩
    · exact ⟨startG f, by rw [hf]; rfl, tracks_startG f⟩
  | progress eid loaded total =>
    simp only [step]
    rw [findFile_stepProgress, hf]
    simp only [Option.map_some']
    by_cases he : fid = eid
    · subst he
      simp only [evValid, hf] at hv
      simp only [Bool.and_eq_true, Bool.not_eq_true'] at hv
      obtain ⟨⟨⟨⟨⟨hst, hse⟩, hab⟩, henv⟩, htot⟩, hld⟩ := hv
      exact ⟨_, rfl, by rw [applyAt_hit _ hid]; exact tracks_progressG loaded total hab⟩
    · rw [applyAt_miss _ (by rw [hid]; exact he)]
      exact ⟨f, rfl, tracks_rfl f⟩
  | settleResolve eid url =>
    simp only [step]
    rw [findFile_stepResolve, hf]
    simp only [Option.map_some']
    by_cases he : fid = eid
    · subst he
      simp only [evValid, hf] at hv
      simp only [Bool.and_eq_true, Bool.not_eq_true', beq_iff_eq] at hv
      obtain ⟨⟨⟨hst, hse⟩, hab⟩, henv⟩ := hv
      exact ⟨_, rfl, by
        rw [applyAt_hit _ hid]
        exact tracks_resolveG url henv hab⟩
    · rw [applyAt_miss _ (by rw [hid]; exact he)]
      exact ⟨f, rfl, tracks_rfl f⟩
  | settleReject eid =>
    simp only [step]
    rw [findFile_stepReject, hf]
    simp only [Option.map_some']
    by_cases he : fid = eid
    · subst he
      simp only [evValid, hf] at hv
      simp only [Bool.and_eq_true, Bool.not_eq_true', Bool.or_eq_true, beq_iff_eq] at hv
      obtain ⟨⟨⟨hst, hse⟩, hab⟩, henv⟩ := hv
      refine ⟨_, rfl, ?_⟩
      rw [applyAt_hit _ hid]
      refine tracks_rejectG ?_ hab
      rcases henv with (h | h) | h <;> rw [h] <;> simp
    · rw [applyAt_miss _ (by rw [hid]; exact he)]
      exact ⟨f, rfl, tracks_rfl f⟩
  | removeFile eid =>
    simp only [step]
    rw [findFile_stepRemove, hf]
    simp only [Option.map_some']
    by_cases he : fid = eid
    · subst he
      exact ⟨_, rfl, by rw [applyAt_hit _ hid]; exact tracks_removeG f⟩
    · rw [applyAt_miss _ (by rw [hid]; exact he)]
      exact ⟨f, rfl, tracks_rfl f⟩

theorem run_track {s : BatchState} {T : List Ev} {fid : String} {f : OFile}
    (hv : ValidFrom s T = true) (hf : findFile s fid = some f) :
    ∃ f', findFile (run s T) fid = some f' ∧ Tracks f f' := by
  induction T generalizing s f with
  | nil => exact ⟨f, hf, tracks_rfl f⟩
  | cons e es ih =>
    rw [ValidFrom, Bool.and_eq_true] at hv
    obtain ⟨f₁, hf₁, t1⟩ := step_track hv.1 hf
    obtain ⟨f₂, hf₂, t2⟩ := ih hv.2 hf₁
    exact ⟨f₂, hf₂, tracks_trans t1 t2⟩

end Uploader

namespace Uploader

/-! ### Preservation of the state invariant -/

theorem progressValue_bounds {loaded total : Nat} (htot : 0 < total) (hld : loaded ≤ total) :
    0 ≤ progressValue loaded total ∧ progressValue loaded total ≤ 100 := by
  have ht : (0 : ℚ) < total := by exact_mod_cast htot
  constructor
  · rw [progressValue]; positivity
  · have h1 : (loaded : ℚ) / total ≤ 1 := by
      rw [div_le_one ht]; exact_mod_cast hld
    calc (loaded : ℚ) / (total : ℚ) * 100 ≤ 1 * 100 := by
          exact mul_le_mul_of_nonneg_right h1 (by norm_num)
      _ = 100 := by norm_num

theorem applyAt_startedEq (eid : String) (g : OFile → OFile)
    (hg : ∀ f, (g f).started = f.started) (f : OFile) :
    (applyAt eid g f).started = f.started := by
  rw [applyAt]; split_ifs; exacts [hg f, rfl]

theorem applyAt_settledEq (eid : String) (g : OFile → OFile)
    (hg : ∀ f, (g f).settled = f.settled) (f : OFile) :
    (applyAt eid g f).settled = f.settled := by
  rw [applyAt]; split_ifs; exacts [hg f, rfl]

theorem applyAt_pushedEq (eid : String) (g : OFile → OFile)
    (hg : ∀ f, (g f).pushedUrl = f.pushedUrl) (f : OFile) :
    (applyAt eid g f).pushedUrl = f.pushedUrl := by
  rw [applyAt]; split_ifs; exacts [hg f, rfl]

theorem progressG_started (loaded total : Nat) (f : OFile) :
    (progressG loaded total f).started = f.started := by
  rw [progressG]; split_ifs <;> rfl

theorem progressG_settled (loaded total : Nat) (f : OFile) :
    (progressG loaded total f).settled = f.settled := by
  rw [progressG]; split_ifs <;> rfl

theorem progressG_pushed (loaded total : Nat) (f : OFile) :
    (progressG loaded total f).pushedUrl = f.pushedUrl := by
  rw [progressG]; split_ifs <;> rfl

theorem removeG_started (f : OFile) : (removeG f).started = f.started := by
  rw [removeG]; split_ifs <;> rfl

theorem removeG_settled (f : OFile) : (removeG f).settled = f.settled := by
  rw [removeG]; split_ifs <;> rfl

theorem removeG_pushed (f : OFile) : (removeG f).pushedUrl = f.pushedUrl := by
  rw [removeG]; split_ifs <;> rfl

theorem startG_started_of (f : OFile) (h : f.started = true) : (startG f).started = true := by
  rw [startG]; split_ifs <;> [rfl; exact h]

theorem startG_settled (f : OFile) : (startG f).settled = f.settled := by
  rw [startG]; split_ifs <;> rfl

theorem startG_pushed (f : OFile) : (startG f).pushedUrl = f.pushedUrl := by
  rw [startG]; split_ifs <;> rfl

theorem stateInv_maybeJoin {s : BatchState} (hs : StateInv s) (hb : s.batchStarted = true) :
    StateInv (maybeJoin s) := by
  rw [maybeJoin]
  split_ifs with h1 h2 h3
  · exact hs
  · refine ⟨hs.nodupIds, hs.fileInv, ?_, ?_, hs.closedHasEmit, hs.emitEqUrls, hs.noPushNoUrls, ?_⟩
    · rintro ⟨f, hm, hb1, hb2⟩
      have hm' : f ∈ s.files := hm
      exact absurd h2 (by rw [allStartedSettled_false_of_blocked hm' hb1 hb2]; simp)
    · intro h; exact absurd h (by simp)
    · intro h; rw [hb] at h; exact absurd h (by simp)
  · refine ⟨hs.nodupIds, hs.fileInv, ?_, ?_, ?_, ?_, hs.noPushNoUrls, ?_⟩
    · rintro ⟨f, hm, hb1, hb2⟩
      have hm' : f ∈ s.files := hm
      exact absurd h2 (by rw [allStartedSettled_false_of_blocked hm' hb1 hb2]; simp)
    · intro h; exact absurd h (by simp)
    · intro _; exact ⟨s.uploadedUrls, rfl⟩
    · intro u hu
      have hu' : s.uploadedUrls = u := by
        have := hu; simpa using this
      refine ⟨hu'.symm, ?_⟩
      rw [← hu']
      intro hnil
      rw [hnil] at h3
      exact h3 rfl
    · intro h; rw [hb] at h; exact absurd h (by simp)
  · exact hs

end Uploader

namespace Uploader

theorem stateInv_stepStart {s : BatchState} (hs : StateInv s)
    (hv : evValid s Ev.startBatch = true) : StateInv (stepStart s) := by
  have hbs : s.batchStarted = false := by simpa [evValid] using hv
  rw [stepStart]
  split_ifs with hE
  · exact ⟨hs.nodupIds, hs.fileInv, hs.blockedNotJoined, hs.notJoinedNoEmit,
      hs.closedHasEmit, hs.emitEqUrls, hs.noPushNoUrls, fun h => absurd h (by simp)⟩
  · apply stateInv_maybeJoin _ rfl
    refine ⟨?_, ?_, ?_, hs.notJoinedNoEmit, hs.closedHasEmit, hs.emitEqUrls, ?_, ?_⟩
    · show ((s.files.map startG).map OFile.id).Nodup
      rw [map_id_of_id startG startG_id]; exact hs.nodupIds
    · intro f' hf'
      obtain ⟨f, hm, rfl⟩ := List.mem_map.mp hf'
      have hi := hs.fileInv f hm
      rw [startG]; split_ifs with hc
      · exact ⟨fun _ => rfl, hi.unsettledClean, hi.settledTerminal, hi.progressBounds⟩
      · exact hi
    · exact fun _ => (hs.preBatch hbs).1
    · intro hall
      apply hs.noPushNoUrls
      intro f hm
      have h := hall (startG f) (List.mem_map_of_mem _ hm)
      rw [startG_pushed] at h
      exact h
    · intro h; exact absurd h (by simp)

theorem stateInv_stepProgress {s : BatchState} {eid : String} {loaded total : Nat}
    (hs : StateInv s) (hv : evValid s (Ev.progress eid loaded total) = true) :
    StateInv (stepProgress s eid loaded total) := by
  simp only [evValid] at hv
  cases hfind : findFile s eid with
  | none => rw [hfind] at hv; cases hv
  | some f₀ =>
    rw [hfind] at hv
    simp only [Bool.and_eq_true, Bool.not_eq_true', decide_eq_true_eq] at hv
    obtain ⟨⟨⟨⟨⟨hst, hse⟩, hab⟩, henv⟩, htot⟩, hld⟩ := hv
    have hfind' : s.files.find? (fun x => x.id == eid) = some f₀ := hfind
    refine ⟨?_, ?_, ?_, hs.notJoinedNoEmit, hs.closedHasEmit, hs.emitEqUrls, ?_, ?_⟩
    · show ((s.files.map (applyAt eid (progressG loaded total))).map OFile.id).Nodup
      rw [map_id_of_id _ (applyAt_id _ _ (progressG_id loaded total))]; exact hs.nodupIds
    · intro f' hf'
      obtain ⟨f, hm, rfl⟩ := List.mem_map.mp hf'
      have hi := hs.fileInv f hm
      rw [applyAt]; split_ifs with hcid
      · have hf₀ : f = f₀ := find?_unique hs.nodupIds hfind' hm (beq_iff_eq.mp (by exact hcid))
        subst hf₀
        rw [progressG]; split_ifs with hrem
        · exact hi
        · refine ⟨fun _ => hst, ?_, ?_, progressValue_bounds htot hld⟩
          · intro _; exact hi.unsettledClean hse
          · intro _ h2
            have h2' : f.settled = true := h2
            rw [hse] at h2'
            exact absurd h2' (by simp)
      · exact hi
    · rintro ⟨f', hf', hb1, hb2⟩
      obtain ⟨f, hm, rfl⟩ := List.mem_map.mp hf'
      rw [applyAt_startedEq _ _ (progressG_started loaded total)] at hb1
      rw [applyAt_settledEq _ _ (progressG_settled loaded total)] at hb2
      exact hs.blockedNotJoined ⟨f, hm, hb1, hb2⟩
    · intro hall
      apply hs.noPushNoUrls
      intro f hm
      have h := hall (applyAt eid (progressG loaded total) f) (List.mem_map_of_mem _ hm)
      rw [applyAt_pushedEq _ _ (progressG_pushed loaded total)] at h
      exact h
    · intro h
      obtain ⟨hj, hall⟩ := hs.preBatch h
      refine ⟨hj, ?_⟩
      intro f' hf'
      obtain ⟨f, hm, rfl⟩ := List.mem_map.mp hf'
      rw [applyAt_startedEq _ _ (progressG_started loaded total)]
      exact hall f hm

end Uploader

namespace Uploader

theorem rejectG_pushed (f : OFile) : (rejectG f).pushedUrl = f.pushedUrl := rfl

theorem batchStarted_of_started {s : BatchState} {f : OFile} (hs : StateInv s)
    (hm : f ∈ s.files) (hst : f.started = true) : s.batchStarted = true := by
  by_cases hb : s.batchStarted = true
  · exact hb
  · have h := (hs.preBatch (by simpa using hb)).2 f hm
    rw [hst] at h
    exact absurd h (by simp)

theorem stateInv_stepResolve {s : BatchState} {eid url : String} (hs : StateInv s)
    (hv : evValid s (Ev.settleResolve eid url) = true) : StateInv (stepResolve s eid url) := by
  simp only [evValid] at hv
  cases hfind : findFile s eid with
  | none => rw [hfind] at hv; cases hv
  | some f₀ =>
    rw [hfind] at hv
    simp only [Bool.and_eq_true, Bool.not_eq_true', beq_iff_eq] at hv
    obtain ⟨⟨⟨hst, hse⟩, hab⟩, henv⟩ := hv
    have hfind' : s.files.find? (fun x => x.id == eid) = some f₀ := hfind
    have hmem₀ : f₀ ∈ s.files := findFile_mem hfind
    have hid₀ : f₀.id = eid := findFile_eq_id hfind
    have hjoined : s.joined = false := hs.blockedNotJoined ⟨f₀, hmem₀, hst, hse⟩
    have hemit : s.emitted = none := hs.notJoinedNoEmit hjoined
    have hbs : s.batchStarted = true := batchStarted_of_started hs hmem₀ hst
    rw [stepResolve]
    refine stateInv_maybeJoin ?_ (by exact hbs)
    refine ⟨?_, ?_, fun _ => hjoined, fun _ => hemit, ?_, ?_, ?_, ?_⟩
    · show ((s.files.map (applyAt eid (resolveG url))).map OFile.id).Nodup
      rw [map_id_of_id _ (applyAt_id _ _ (resolveG_id url))]; exact hs.nodupIds
    · intro f' hf'
      obtain ⟨f, hm, rfl⟩ := List.mem_map.mp hf'
      have hi := hs.fileInv f hm
      rw [applyAt]; split_ifs with hcid
      · have hf₀ : f = f₀ := find?_unique hs.nodupIds hfind' hm (beq_iff_eq.mp (by exact hcid))
        subst hf₀
        rw [resolveG]
        by_cases hrem : f.removed = true
        · rw [if_pos hrem]
          refine ⟨fun h => hi.uploadingStarted h, ?_, ?_, hi.progressBounds⟩
          · intro h; have h' : (true : Bool) = false := h; exact absurd h' (by simp)
          · intro h1; have h1' : f.removed = false := h1; rw [hrem] at h1'
            exact absurd h1' (by simp)
        · rw [if_neg hrem]
          refine ⟨?_, ?_, fun _ _ => Or.inl rfl, hi.progressBounds⟩
          · intro h; have h' : Status.success = Status.uploading := h
            exact absurd h' (by simp)
          · intro h; have h' : (true : Bool) = false := h; exact absurd h' (by simp)
      · exact hi
    · intro h; exact hs.closedHasEmit h
    · intro u hu
      have hu' : s.emitted = some u := hu
      rw [hemit] at hu'
      exact absurd hu' (by simp)
    · intro hall
      have h := hall (applyAt eid (resolveG url) f₀) (List.mem_map_of_mem _ hmem₀)
      rw [applyAt_hit _ hid₀] at h
      have h' : (some url : Option String) = none := h
      exact absurd h' (by simp)
    · intro h
      have h' : s.batchStarted = false := h
      rw [hbs] at h'
      exact absurd h' (by simp)

theorem stateInv_stepReject {s : BatchState} {eid : String} (hs : StateInv s)
    (hv : evValid s (Ev.settleReject eid) = true) : StateInv (stepReject s eid) := by
  simp only [evValid] at hv
  cases hfind : findFile s eid with
  | none => rw [hfind] at hv; cases hv
  | some f₀ =>
    rw [hfind] at hv
    simp only [Bool.and_eq_true, Bool.not_eq_true', Bool.or_eq_true, beq_iff_eq] at hv
    obtain ⟨⟨⟨hst, hse⟩, hab⟩, henv⟩ := hv
    have hfind' : s.files.find? (fun x => x.id == eid) = some f₀ := hfind
    have hmem₀ : f₀ ∈ s.files := findFile_mem hfind
    have hjoined : s.joined = false := hs.blockedNotJoined ⟨f₀, hmem₀, hst, hse⟩
    have hemit : s.emitted = none := hs.notJoinedNoEmit hjoined
    have hbs : s.batchStarted = true := batchStarted_of_started hs hmem₀ hst
    rw [stepReject]
    refine stateInv_maybeJoin ?_ (by exact hbs)
    refine ⟨?_, ?_, fun _ => hjoined, fun _ => hemit, ?_, ?_, ?_, ?_⟩
    · show ((s.files.map (applyAt eid rejectG)).map OFile.id).Nodup
      rw [map_id_of_id _ (applyAt_id _ _ rejectG_id)]; exact hs.nodupIds
    · intro f' hf'
      obtain ⟨f, hm, rfl⟩ := List.mem_map.mp hf'
      have hi := hs.fileInv f hm
      rw [applyAt]; split_ifs with hcid
      · have hf₀ : f = f₀ := find?_unique hs.nodupIds hfind' hm (beq_iff_eq.mp (by exact hcid))
        subst hf₀
        rw [rejectG]
        by_cases hrem : f.removed = true
        · rw [if_pos hrem]
          refine ⟨fun h => hi.uploadingStarted h, ?_, ?_, hi.progressBounds⟩
          · intro h; have h' : (true : Bool) = false := h; exact absurd h' (by simp)
          · intro h1; have h1' : f.removed = false := h1; rw [hrem] at h1'
            exact absurd h1' (by simp)
        · rw [if_neg hrem]
          refine ⟨?_, ?_, fun _ _ => Or.inr rfl, hi.progressBounds⟩
          · intro h; have h' : Status.error = Status.uploading := h
            exact absurd h' (by simp)
          · intro h; have h' : (true : Bool) = false := h; exact absurd h' (by simp)
      · exact hi
    · intro h; exact hs.closedHasEmit h
    · intro u hu
      have hu' : s.emitted = some u := hu
      rw [hemit] at hu'
      exact absurd hu' (by simp)
    · intro hall
      apply hs.noPushNoUrls
      intro f hm
      have h := hall (applyAt eid rejectG f) (List.mem_map_of_mem _ hm)
      rw [applyAt_pushedEq _ _ rejectG_pushed] at h
      exact h
    · intro h
      have h' : s.batchStarted = false := h
      rw [hbs] at h'
      exact absurd h' (by simp)

theorem stateInv_stepRemove {s : BatchState} {eid : String} (hs : StateInv s) :
    StateInv (stepRemove s eid) := by
  simp only [stepRemove]
  refine ⟨?_, ?_, ?_, hs.notJoinedNoEmit, hs.closedHasEmit, hs.emitEqUrls, ?_, ?_⟩
  · show ((s.files.map (applyAt eid removeG)).map OFile.id).Nodup
    rw [map_id_of_id _ (applyAt_id _ _ removeG_id)]; exact hs.nodupIds
  · intro f' hf'
    obtain ⟨f, hm, rfl⟩ := List.mem_map.mp hf'
    have hi := hs.fileInv f hm
    rw [applyAt]; split_ifs with hcid
    · rw [removeG]
      split_ifs with hrem
      · exact hi
      · refine ⟨fun h => hi.uploadingStarted h, hi.unsettledClean, ?_, hi.progressBounds⟩
        intro h1; have h1' : (true : Bool) = false := h1; exact absurd h1' (by simp)
    · exact hi
  · rintro ⟨f', hf', hb1, hb2⟩
    obtain ⟨f, hm, rfl⟩ := List.mem_map.mp hf'
    rw [applyAt_startedEq _ _ removeG_started] at hb1
    rw [applyAt_settledEq _ _ removeG_settled] at hb2
    exact hs.blockedNotJoined ⟨f, hm, hb1, hb2⟩
  · intro hall
    apply hs.noPushNoUrls
    intro f hm
    have h := hall (applyAt eid removeG f) (List.mem_map_of_mem _ hm)
    rw [applyAt_pushedEq _ _ removeG_pushed] at h
    exact h
  · intro h
    obtain ⟨hj, hall⟩ := hs.preBatch h
    refine ⟨hj, ?_⟩
    intro f' hf'
    obtain ⟨f, hm, rfl⟩ := List.mem_map.mp hf'
    rw [applyAt_startedEq _ _ removeG_started]
    exact hall f hm

theorem stateInv_step {s : BatchState} {e : Ev} (hs : StateInv s) (hv : evValid s e = true) :
    StateInv (step s e) := by
  cases e with
  | startBatch => exact stateInv_stepStart hs hv
  | progress eid loaded total => exact stateInv_stepProgress hs hv
  | settleResolve eid url => exact stateInv_stepResolve hs hv
  | settleReject eid => exact stateInv_stepReject hs hv
  | removeFile eid => exact stateInv_stepRemove hs

theorem stateInv_run {s : BatchState} {T : List Ev} (hs : StateInv s)
    (hv : ValidFrom s T = true) : StateInv (run s T) := by
  induction T generalizing s with
  | nil => exact hs
  | cons e es ih =>
    rw [ValidFrom, Bool.and_eq_true] at hv
    exact ih (stateInv_step hs hv.1) hv.2

theorem initFiles_shape {l : List (String × String × Env)} {f : OFile}
    (hm : f ∈ initFiles l) : ∃ x ∈ l, f = initFile x.1 x.2.1 x.2.2 := by
  obtain ⟨x, hx, rfl⟩ := List.mem_map.mp hm
  exact ⟨x, hx, rfl⟩

theorem stateInv_init {l : List (String × String × Env)}
    (hnd : (l.map (fun x => x.1)).Nodup) : StateInv (initState (initFiles l)) := by
  refine ⟨?_, ?_, fun _ => rfl, fun _ => rfl, ?_, ?_, fun _ => rfl, ?_⟩
  · show ((initFiles l).map OFile.id).Nodup
    rw [initFiles, List.map_map]
    exact hnd
  · intro f hm
    obtain ⟨x, hx, rfl⟩ := initFiles_shape hm
    refine ⟨?_, fun _ => ⟨rfl, rfl⟩, ?_, le_refl 0, (by norm_num : (0 : ℚ) ≤ 100)⟩
    · intro h; have h' : Status.pending = Status.uploading := h
      exact absurd h' (by simp)
    · intro _ h2; have h2' : (false : Bool) = true := h2
      exact absurd h2' (by simp)
  · intro h; have h' : (true : Bool) = false := h; exact absurd h' (by simp)
  · intro u hu; have hu' : (none : Option (List String)) = some u := hu
    exact absurd hu' (by simp)
  · intro _
    refine ⟨rfl, ?_⟩
    intro f hm
    obtain ⟨x, hx, rfl⟩ := initFiles_shape hm
    rfl

end Uploader

namespace Uploader

/-- The initial component state for a batch described by `(id, name, fate)`
triples. -/
def batchOf (l : List (String × String × Env)) : BatchState := initState (initFiles l)

theorem stateInv_batchOf {l : List (String × String × Env)}
    (hnd : (l.map (fun x => x.1)).Nodup) : StateInv (batchOf l) := stateInv_init hnd

/-- A started file that can never settle (`viewFail` fate or aborted) keeps the
`Promise.all` join from ever running: no result is emitted for the batch. -/
theorem blocked_no_emit {s : BatchState} {T : List Ev} {fid : String} {f : OFile}
    (hs : StateInv s) (hv : ValidFrom s T = true) (hf : findFile s fid = some f)
    (hst : f.started = true) (hse : f.settled = false)
    (hblock : f.env = Env.viewFail ∨ f.aborted = true) :
    (run s T).emitted = none ∧ (run s T).joined = false := by
  obtain ⟨f', hf', t⟩ := run_track hv hf
  have hst' : f'.started = true := t.started_mono hst
  have hse' : f'.settled = false := by
    rcases hblock with h | h
    · exact (t.viewFail_frozen h).1.trans hse
    · exact (t.aborted_frozen h).1.trans hse
  have hsr := stateInv_run hs hv
  have hj : (run s T).joined = false :=
    hsr.blockedNotJoined ⟨f', findFile_mem hf', hst', hse'⟩
  exact ⟨hsr.notJoinedNoEmit hj, hj⟩

end Uploader

namespace Uploader

/-- C1: for a file whose byte transfer succeeds but whose view-URL exchange
fails (fate `viewFail`), the code never reaches `success` — but contrary to
the claim it never reaches `error` either: the `throw` inside the async
`xhr.onload` settles nothing, so the file stays `pending`/`uploading`, no URL
for it is ever pushed, and once the file was started the batch's Upload Result
is never emitted at all. -/
theorem dropzone_view_url_failure_not_error
    (l : List (String × String × Env)) (T : List Ev) (fid nm : String)
    (hnd : (l.map (fun x => x.1)).Nodup)
    (hv : ValidFrom (batchOf l) T = true)
    (hf : findFile (batchOf l) fid = some (initFile fid nm Env.viewFail)) :
    ∃ f', findFile (run (batchOf l) T) fid = some f' ∧
      f'.status ≠ Status.success ∧ f'.status ≠ Status.error ∧ f'.pushedUrl = none ∧
      (f'.started = true → (run (batchOf l) T).emitted = none) := by
  obtain ⟨f', hf', t⟩ := run_track hv hf
  obtain ⟨hsettled, hpushed, hstatus⟩ := t.viewFail_frozen rfl
  refine ⟨f', hf', ?_, ?_, ?_, ?_⟩
  · rcases hstatus with h | h
    · rw [h]; simp [initFile]
    · rw [h]; simp
  · rcases hstatus with h | h
    · rw [h]; simp [initFile]
    · rw [h]; simp
  · rw [hpushed]; rfl
  · intro hstart
    have hsr := stateInv_run (stateInv_batchOf hnd) hv
    have hse' : f'.settled = false := hsettled.trans rfl
    have hj := hsr.blockedNotJoined ⟨f', findFile_mem hf', hstart, hse'⟩
    exact hsr.notJoinedNoEmit hj

/-- Witness for C1 at a concrete batch: one file, started, one progress event,
view-URL exchange fails. -/
theorem dropzone_view_url_failure_not_error_witness :
    (([("a", "a.jpg", Env.viewFail)].map (fun x => x.1)).Nodup) ∧
    ValidFrom (batchOf [("a", "a.jpg", Env.viewFail)])
      [Ev.startBatch, Ev.progress "a" 1 2] = true ∧
    findFile (batchOf [("a", "a.jpg", Env.viewFail)]) "a"
      = some (initFile "a" "a.jpg" Env.viewFail) ∧
    (∃ f', findFile (run (batchOf [("a", "a.jpg", Env.viewFail)])
        [Ev.startBatch, Ev.progress "a" 1 2]) "a" = some f' ∧
      f'.status ≠ Status.success ∧ f'.status ≠ Status.error ∧ f'.pushedUrl = none ∧
      (f'.started = true → (run (batchOf [("a", "a.jpg", Env.viewFail)])
        [Ev.startBatch, Ev.progress "a" 1 2]).emitted = none)) :=
  ⟨by decide, by decide, by decide,
   dropzone_view_url_failure_not_error _ _ _ "a.jpg" (by decide) (by decide) (by decide)⟩

end Uploader

namespace Uploader

/-- C2: the claim promises that one file's failure never prevents sibling
files' URLs from appearing in the Upload Result.  On the code, a started file
whose view-URL exchange fails after a successful transfer blocks the
`Promise.all` join forever, so NO Upload Result is emitted at all — sibling
URLs included. -/
theorem dropzone_view_url_failure_suppresses_siblings
    (l : List (String × String × Env)) (T : List Ev) (bid bnm : String) (f' : OFile)
    (hnd : (l.map (fun x => x.1)).Nodup)
    (hv : ValidFrom (batchOf l) T = true)
    (hb : findFile (batchOf l) bid = some (initFile bid bnm Env.viewFail))
    (hfin : findFile (run (batchOf l) T) bid = some f')
    (hstart : f'.started = true) :
    (run (batchOf l) T).emitted = none := by
  obtain ⟨f₁, hf₁, t⟩ := run_track hv hb
  rw [hf₁] at hfin
  have hff : f₁ = f' := Option.some_injective _ hfin
  subst hff
  have hse : f₁.settled = false := (t.viewFail_frozen rfl).1.trans rfl
  have hsr := stateInv_run (stateInv_batchOf hnd) hv
  exact hsr.notJoinedNoEmit (hsr.blockedNotJoined ⟨f₁, findFile_mem hf₁, hstart, hse⟩)

/-- Witness for C2 at a concrete batch: sibling `a` fully succeeds (its
`uploadFile` resolves `"u"`), `b`'s view-URL exchange fails — and the result
carrying `a`'s URL is never emitted. -/
theorem dropzone_view_url_failure_suppresses_siblings_witness :
    (([("a", "a.jpg", Env.done "u"), ("b", "b.mov", Env.viewFail)].map
        (fun x => x.1)).Nodup) ∧
    ValidFrom (batchOf [("a", "a.jpg", Env.done "u"), ("b", "b.mov", Env.viewFail)])
      [Ev.startBatch, Ev.settleResolve "a" "u"] = true ∧
    (findFile (run (batchOf [("a", "a.jpg", Env.done "u"), ("b", "b.mov", Env.viewFail)])
        [Ev.startBatch, Ev.settleResolve "a" "u"]) "a").map OFile.status
      = some Status.success ∧
    (run (batchOf [("a", "a.jpg", Env.done "u"), ("b", "b.mov", Env.viewFail)])
      [Ev.startBatch, Ev.settleResolve "a" "u"]).emitted = none :=
  ⟨by decide, by decide, by decide,
   dropzone_view_url_failure_suppresses_siblings
     [("a", "a.jpg", Env.done "u"), ("b", "b.mov", Env.viewFail)]
     [Ev.startBatch, Ev.settleResolve "a" "u"] "b" "b.mov"
     { initFile "b" "b.mov" Env.viewFail with started := true }
     (by decide) (by decide) (by decide) (by decide) (by decide)⟩

/-- C3: contrary to the claim, a file cancelled mid-transfer (while
`status === 'uploading'`) DOES block batch completion: `xhr.abort()` fires
neither `onload` nor `onerror`, the aborted file's promise never settles, the
`Promise.all` join never runs, and no completion callback ever fires — the
Upload Result is never emitted, whatever happens afterwards. -/
theorem dropzone_cancel_blocks_batch_completion
    (l : List (String × String × Env)) (T1 T2 : List Ev) (fid : String) (f₁ : OFile)
    (hnd : (l.map (fun x => x.1)).Nodup)
    (hv : ValidFrom (batchOf l) (T1 ++ Ev.removeFile fid :: T2) = true)
    (h1 : findFile (run (batchOf l) T1) fid = some f₁)
    (hst : f₁.status = Status.uploading) :
    (run (batchOf l) (T1 ++ Ev.removeFile fid :: T2)).emitted = none := by
  rw [ValidFrom_append, Bool.and_eq_true] at hv
  obtain ⟨hv1, hv2⟩ := hv
  rw [ValidFrom, Bool.and_eq_true] at hv2
  obtain ⟨hv2a, hv2b⟩ := hv2
  have hs1 : StateInv (run (batchOf l) T1) := stateInv_run (stateInv_batchOf hnd) hv1
  have hi := hs1.fileInv f₁ (findFile_mem h1)
  have hstarted : f₁.started = true := hi.uploadingStarted hst
  have hrem : f₁.removed = false := by
    simp only [evValid, h1] at hv2a
    simpa using hv2a
  have hset : f₁.settled = false := by
    by_contra h
    rw [Bool.not_eq_false] at h
    rcases hi.settledTerminal hrem h with h' | h' <;> rw [hst] at h' <;> simp at h'
  have hid₁ : f₁.id = fid := findFile_eq_id h1
  have hf₂ : findFile (step (run (batchOf l) T1) (Ev.removeFile fid)) fid
      = some (removeG f₁) := by
    simp only [step]
    rw [findFile_stepRemove, h1, Option.map_some', applyAt_hit _ hid₁]
  have hrg : removeG f₁
      = { f₁ with removed := true, aborted := f₁.aborted || f₁.status == Status.uploading } := by
    rw [removeG, if_neg (by rw [hrem]; simp)]
  have habort : (removeG f₁).aborted = true := by
    rw [hrg]
    show (f₁.aborted || (f₁.status == Status.uploading)) = true
    rw [hst]
    simp
  have hstart₂ : (removeG f₁).started = true := by rw [removeG_started]; exact hstarted
  have hset₂ : (removeG f₁).settled = false := by rw [removeG_settled]; exact hset
  have hs2 : StateInv (step (run (batchOf l) T1) (Ev.removeFile fid)) :=
    stateInv_step hs1 hv2a
  have hfinal := blocked_no_emit hs2 hv2b hf₂ hstart₂ hset₂ (Or.inr habort)
  rw [run_append]
  exact hfinal.1

/-- Witness for C3 at a concrete batch: `a` and `b` both transfer; `b` gets a
progress event (so its status is `uploading`), is then cancelled, and `a`
resolves its URL — yet nothing is ever emitted. -/
theorem dropzone_cancel_blocks_batch_completion_witness :
    (([("a", "a.jpg", Env.done "u"), ("b", "b.mov", Env.done "v")].map
        (fun x => x.1)).Nodup) ∧
    ValidFrom (batchOf [("a", "a.jpg", Env.done "u"), ("b", "b.mov", Env.done "v")])
      ([Ev.startBatch, Ev.progress "b" 1 2] ++ Ev.removeFile "b" :: [Ev.settleResolve "a" "u"])
      = true ∧
    (run (batchOf [("a", "a.jpg", Env.done "u"), ("b", "b.mov", Env.done "v")])
      ([Ev.startBatch, Ev.progress "b" 1 2]
        ++ Ev.removeFile "b" :: [Ev.settleResolve "a" "u"])).emitted = none :=
  ⟨by decide, by decide,
   dropzone_cancel_blocks_batch_completion
     [("a", "a.jpg", Env.done "u"), ("b", "b.mov", Env.done "v")]
     [Ev.startBatch, Ev.progress "b" 1 2] [Ev.settleResolve "a" "u"] "b"
     { initFile "b" "b.mov" (Env.done "v") with
         started := true, status := Status.uploading, uploadProgress := progressValue 1 2 }
     (by decide) (by decide) rfl (by decide)⟩

end Uploader

namespace Uploader

/-- C4 counterexample: starting a batch over one pending file changes no
status — immediately afterwards the file is still `pending`, not `uploading`
(the transition happens only in `xhr.upload.onprogress`). -/
theorem dropzone_start_leaves_files_pending_cex :
    ValidFrom (batchOf [("a", "a.jpg", Env.done "u")]) [Ev.startBatch] = true ∧
    (findFile (run (batchOf [("a", "a.jpg", Env.done "u")]) [Ev.startBatch]) "a").map
        OFile.status = some Status.pending ∧
    Status.pending ≠ Status.uploading :=
  ⟨by decide, by decide, by decide⟩

/-- C4 amended: the batch-start intent captures exactly the present files in
`pending` (and no others) as started transfers, while changing no file's
status; a started file shows `uploading` only after its first
length-computable progress event. -/
theorem dropzone_batch_start_amended
    (l : List (String × String × Env)) (T : List Ev) (fid : String) (f : OFile)
    (hnd : (l.map (fun x => x.1)).Nodup)
    (hv : ValidFrom (batchOf l) (T ++ [Ev.startBatch]) = true)
    (hf : findFile (run (batchOf l) T) fid = some f)
    (hne : (presentFiles (run (batchOf l) T)).isEmpty = false) :
    findFile (run (batchOf l) (T ++ [Ev.startBatch])) fid = some (startG f) ∧
    (startG f).status = f.status ∧
    (startG f).started = (!f.removed && f.status == Status.pending) := by
  rw [ValidFrom_append, Bool.and_eq_true] at hv
  obtain ⟨hv1, hv2⟩ := hv
  rw [ValidFrom, Bool.and_eq_true] at hv2
  have hbs : (run (batchOf l) T).batchStarted = false := by simpa [evValid] using hv2.1
  have hs := stateInv_run (stateInv_batchOf hnd) hv1
  have hstf : f.started = false := (hs.preBatch hbs).2 f (findFile_mem hf)
  refine ⟨?_, ?_, ?_⟩
  · rw [run_append]
    show findFile (stepStart (run (batchOf l) T)) fid = some (startG f)
    rw [findFile_stepStart, if_neg (by rw [hne]; simp), hf, Option.map_some']
  · rw [startG]; split_ifs <;> rfl
  · rw [startG]
    by_cases hc : (!f.removed && f.status == Status.pending) = true
    · rw [if_pos hc, hc]
    · rw [if_neg hc]
      have hcf : (!f.removed && f.status == Status.pending) = false := by
        revert hc; cases (!f.removed && f.status == Status.pending) <;> simp
      rw [hcf, hstf]

/-- Witness for C4 amended: two fresh files, one doomed to a target failure;
batch start marks both started, statuses untouched. -/
theorem dropzone_batch_start_amended_witness :
    (([("a", "a.jpg", Env.done "u"), ("b", "b.mov", Env.targetFail)].map
        (fun x => x.1)).Nodup) ∧
    ValidFrom (batchOf [("a", "a.jpg", Env.done "u"), ("b", "b.mov", Env.targetFail)])
      ([] ++ [Ev.startBatch]) = true ∧
    (findFile (run (batchOf [("a", "a.jpg", Env.done "u"), ("b", "b.mov", Env.targetFail)])
        ([] ++ [Ev.startBatch])) "a"
      = some (startG (initFile "a" "a.jpg" (Env.done "u"))) ∧
     (startG (initFile "a" "a.jpg" (Env.done "u"))).status
      = (initFile "a" "a.jpg" (Env.done "u")).status ∧
     (startG (initFile "a" "a.jpg" (Env.done "u"))).started
      = (!(initFile "a" "a.jpg" (Env.done "u")).removed
          && (initFile "a" "a.jpg" (Env.done "u")).status == Status.pending)) :=
  ⟨by decide, by decide,
   dropzone_batch_start_amended
     [("a", "a.jpg", Env.done "u"), ("b", "b.mov", Env.targetFail)] [] "a"
     (initFile "a" "a.jpg" (Env.done "u")) (by decide) (by decide) (by decide) (by decide)⟩

/-- C5 counterexample: the transport reports 3/4 then 1/4 for one file in one
transfer; the recorded values are 75 then 25 — each a percentage far outside
`[0,1]`, decreasing, and NOT coalesced by keeping the maximum (the later,
smaller report overwrote the larger one). -/
theorem dropzone_progress_overwrite_cex :
    ValidFrom (batchOf [("a", "a.jpg", Env.done "u")])
      [Ev.startBatch, Ev.progress "a" 3 4, Ev.progress "a" 1 4] = true ∧
    (findFile (run (batchOf [("a", "a.jpg", Env.done "u")])
        [Ev.startBatch, Ev.progress "a" 3 4]) "a").map OFile.uploadProgress
      = some (progressValue 3 4) ∧
    (findFile (run (batchOf [("a", "a.jpg", Env.done "u")])
        [Ev.startBatch, Ev.progress "a" 3 4, Ev.progress "a" 1 4]) "a").map OFile.uploadProgress
      = some (progressValue 1 4) ∧
    progressValue 3 4 = 75 ∧ progressValue 1 4 = 25 ∧
    (25 : ℚ) < 75 ∧ ¬ (75 : ℚ) ≤ 1 :=
  ⟨by decide, rfl, rfl, by norm_num [progressValue], by norm_num [progressValue],
   by norm_num, by norm_num⟩

/-- C5 amended: in every reachable state a file's recorded progress is a
percentage in `[0, 100]`, and a progress report always overwrites the record
with exactly `(loaded / total) * 100` — last write wins, no maximum is kept,
so the recorded sequence is non-decreasing only when the transport's reports
are. -/
theorem dropzone_progress_amended :
    (∀ (l : List (String × String × Env)) (T : List Ev) (fid : String) (f' : OFile),
      (l.map (fun x => x.1)).Nodup → ValidFrom (batchOf l) T = true →
      findFile (run (batchOf l) T) fid = some f' →
      0 ≤ f'.uploadProgress ∧ f'.uploadProgress ≤ 100) ∧
    (∀ (s : BatchState) (fid : String) (loaded total : Nat) (f' : OFile),
      evValid s (Ev.progress fid loaded total) = true →
      findFile (stepProgress s fid loaded total) fid = some f' → f'.removed = false →
      f'.uploadProgress = progressValue loaded total) := by
  constructor
  · intro l T fid f' hnd hv hf
    exact ((stateInv_run (stateInv_batchOf hnd) hv).fileInv f' (findFile_mem hf)).progressBounds
  · intro s fid loaded total f' hv hf hrm
    simp only [evValid] at hv
    cases hfind : findFile s fid with
    | none => rw [hfind] at hv; cases hv
    | some f₀ =>
      rw [findFile_stepProgress, hfind, Option.map_some'] at hf
      rw [applyAt_hit _ (findFile_eq_id hfind)] at hf
      have hpf : progressG loaded total f₀ = f' := Option.some_injective _ hf
      subst hpf
      rw [progressG] at hrm ⊢
      split_ifs at hrm ⊢ with h
      · exact absurd h (by rw [hrm]; simp)
      · rfl

/-- Witness for C5 amended at concrete progress events. -/
theorem dropzone_progress_amended_witness :
    (([("a", "a.jpg", Env.done "u")].map (fun x => x.1)).Nodup ∧
     ValidFrom (batchOf [("a", "a.jpg", Env.done "u")])
       [Ev.startBatch, Ev.progress "a" 1 2] = true ∧
     (0 ≤ ({ initFile "a" "a.jpg" (Env.done "u") with
              started := true, status := Status.uploading,
              uploadProgress := progressValue 1 2 } : OFile).uploadProgress ∧
      ({ initFile "a" "a.jpg" (Env.done "u") with
          started := true, status := Status.uploading,
          uploadProgress := progressValue 1 2 } : OFile).uploadProgress ≤ 100)) ∧
    (evValid (run (batchOf [("a", "a.jpg", Env.done "u")]) [Ev.startBatch])
        (Ev.progress "a" 3 4) = true ∧
     ({ initFile "a" "a.jpg" (Env.done "u") with
         started := true, status := Status.uploading,
         uploadProgress := progressValue 3 4 } : OFile).uploadProgress
       = progressValue 3 4) :=
  ⟨⟨by decide, by decide,
    dropzone_progress_amended.1 [("a", "a.jpg", Env.done "u")]
      [Ev.startBatch, Ev.progress "a" 1 2] "a"
      { initFile "a" "a.jpg" (Env.done "u") with
          started := true, status := Status.uploading,
          uploadProgress := progressValue 1 2 }
      (by decide) (by decide) rfl⟩,
   ⟨by decide,
    dropzone_progress_amended.2
      (run (batchOf [("a", "a.jpg", Env.done "u")]) [Ev.startBatch]) "a" 3 4
      { initFile "a" "a.jpg" (Env.done "u") with
          started := true, status := Status.uploading,
          uploadProgress := progressValue 3 4 }
      (by decide) rfl (by decide)⟩⟩

end Uploader

namespace Uploader

/-- C6 counterexample: a 6MB file named `photo.png` whose declared MIME type
is empty.  The specification's classifier puts it in the image class via the
extension fallback, so the claim requires a rejection naming the 5MB image
limit — but the component's size checks classify by MIME prefix only, give it
the 50MB video limit, raise no size error, and admit it into the batch. -/
theorem dropzone_no_extension_fallback_cex :
    specMediaClassOf ⟨"photo.png", "", 6 * 1024 * 1024⟩ = MediaClass.image ∧
    MAX_IMAGE_SIZE < 6 * 1024 * 1024 ∧
    sizeValidator ⟨"photo.png", "", 6 * 1024 * 1024⟩ = none ∧
    (processAccepted ⟨"photo.png", "", 6 * 1024 * 1024⟩ 0).isSome = true := by
  refine ⟨by decide, by decide, by decide, by decide⟩

/-- C6 amended: the size class is decided solely by whether the declared MIME
type starts with `image/` — any other type, including an empty or unrecognized
one, gets the video limit regardless of the filename extension.  Within that
classification the rejection messages do state the matched class's configured
limit (5MB for image-typed files, 50MB otherwise, never the other class's
limit or a fixed constant), and a file within its class limit raises no size
error. -/
theorem dropzone_size_limit_amended :
    (∀ f : CandidateFile, isImageType f.type = true → MAX_IMAGE_SIZE < f.size →
      sizeValidator f = some ("file-too-large", "File is larger than 5 MB") ∧
      fileTooLargeMessage f = f.name ++ " is too large. Maximum size is 5MB") ∧
    (∀ f : CandidateFile, isImageType f.type = false → MAX_VIDEO_SIZE < f.size →
      sizeValidator f = some ("file-too-large", "File is larger than 50 MB") ∧
      fileTooLargeMessage f = f.name ++ " is too large. Maximum size is 50MB") ∧
    (∀ (f : CandidateFile) (now : Nat), f.size ≤ maxSizeFor f →
      sizeValidator f = none ∧ (processAccepted f now).isSome = true) := by
  refine ⟨?_, ?_, ?_⟩
  · intro f himg hsz
    have hmax : maxSizeFor f = MAX_IMAGE_SIZE := by rw [maxSizeFor, if_pos himg]
    have hmb : maxSizeInMB f = 5 := by rw [maxSizeInMB, hmax]; decide
    constructor
    · rw [sizeValidator, hmb, if_pos (by rw [hmax]; exact hsz)]
      rfl
    · rw [fileTooLargeMessage, hmb]
      rw [String.append_assoc, String.append_assoc]
      exact congrArg (String.append f.name) (by decide)
  · intro f himg hsz
    have hmax : maxSizeFor f = MAX_VIDEO_SIZE := by rw [maxSizeFor, himg]; rfl
    have hmb : maxSizeInMB f = 50 := by rw [maxSizeInMB, hmax]; decide
    constructor
    · rw [sizeValidator, hmb, if_pos (by rw [hmax]; exact hsz)]
      rfl
    · rw [fileTooLargeMessage, hmb]
      rw [String.append_assoc, String.append_assoc]
      exact congrArg (String.append f.name) (by decide)
  · intro f now hsz
    constructor
    · rw [sizeValidator, if_neg (by exact Nat.not_lt.mpr hsz)]
    · rw [processAccepted, if_neg (by exact Nat.not_lt.mpr hsz)]
      rfl

/-- Witness for C6 amended: a 6MB JPEG, a 60MB MOV, and a 3MB JPEG. -/
theorem dropzone_size_limit_amended_witness :
    (isImageType "image/jpeg" = true ∧ MAX_IMAGE_SIZE < 6 * 1024 * 1024 ∧
      sizeValidator ⟨"big.jpg", "image/jpeg", 6 * 1024 * 1024⟩
        = some ("file-too-large", "File is larger than 5 MB") ∧
      fileTooLargeMessage ⟨"big.jpg", "image/jpeg", 6 * 1024 * 1024⟩
        = "big.jpg" ++ " is too large. Maximum size is 5MB") ∧
    (isImageType "video/quicktime" = false ∧ MAX_VIDEO_SIZE < 60 * 1024 * 1024 ∧
      sizeValidator ⟨"big.mov", "video/quicktime", 60 * 1024 * 1024⟩
        = some ("file-too-large", "File is larger than 50 MB") ∧
      fileTooLargeMessage ⟨"big.mov", "video/quicktime", 60 * 1024 * 1024⟩
        = "big.mov" ++ " is too large. Maximum size is 50MB") ∧
    (3 * 1024 * 1024 ≤ maxSizeFor ⟨"ok.jpg", "image/jpeg", 3 * 1024 * 1024⟩ ∧
      sizeValidator ⟨"ok.jpg", "image/jpeg", 3 * 1024 * 1024⟩ = none ∧
      (processAccepted ⟨"ok.jpg", "image/jpeg", 3 * 1024 * 1024⟩ 7).isSome = true) :=
  ⟨⟨by decide, by decide,
    (dropzone_size_limit_amended.1 ⟨"big.jpg", "image/jpeg", 6 * 1024 * 1024⟩
      (by decide) (by decide)).1,
    (dropzone_size_limit_amended.1 ⟨"big.jpg", "image/jpeg", 6 * 1024 * 1024⟩
      (by decide) (by decide)).2⟩,
   ⟨by decide, by decide,
    (dropzone_size_limit_amended.2.1 ⟨"big.mov", "video/quicktime", 60 * 1024 * 1024⟩
      (by decide) (by decide)).1,
    (dropzone_size_limit_amended.2.1 ⟨"big.mov", "video/quicktime", 60 * 1024 * 1024⟩
      (by decide) (by decide)).2⟩,
   ⟨by decide,
    (dropzone_size_limit_amended.2.2 ⟨"ok.jpg", "image/jpeg", 3 * 1024 * 1024⟩ 7
      (by decide)).1,
    (dropzone_size_limit_amended.2.2 ⟨"ok.jpg", "image/jpeg", 3 * 1024 * 1024⟩ 7
      (by decide)).2⟩⟩

end Uploader

namespace Uploader

theorem removeG_noticed (f : OFile) : (removeG f).noticed = f.noticed := by
  rw [removeG]; split_ifs <;> rfl

/-- C7 counterexample: a file whose transfer is in flight but which has not
yet received a progress event still has `status: 'pending'`; removing it then
does NOT abort the xhr (`removeFile` aborts only when `status === 'uploading'`),
the transfer continues, resolves, and the removed file's URL appears in the
emitted Upload Result. -/
theorem dropzone_cancel_pending_url_leak_cex :
    ValidFrom (batchOf [("a", "a.jpg", Env.done "u")])
      [Ev.startBatch, Ev.removeFile "a", Ev.settleResolve "a" "u"] = true ∧
    (findFile (run (batchOf [("a", "a.jpg", Env.done "u")])
        [Ev.startBatch, Ev.removeFile "a", Ev.settleResolve "a" "u"]) "a").map OFile.removed
      = some true ∧
    (findFile (run (batchOf [("a", "a.jpg", Env.done "u")])
        [Ev.startBatch, Ev.removeFile "a", Ev.settleResolve "a" "u"]) "a").map OFile.aborted
      = some false ∧
    (run (batchOf [("a", "a.jpg", Env.done "u")])
      [Ev.startBatch, Ev.removeFile "a", Ev.settleResolve "a" "u"]).emitted = some ["u"] :=
  ⟨by decide, by decide, by decide, by decide⟩

/-- C7 amended: for a file cancelled while actually shown `uploading` (that
is, after its first progress event) the claim holds: the xhr is aborted, the
file is removed, and neither a URL nor a failure notice for it is ever
produced afterwards.  A file removed in the window between batch start and
its first progress event is removed without an abort and its URL can still
reach the Upload Result (see the counterexample). -/
theorem dropzone_cancel_uploading_amended
    (l : List (String × String × Env)) (T1 T2 : List Ev) (fid : String) (f₁ : OFile)
    (hnd : (l.map (fun x => x.1)).Nodup)
    (hv : ValidFrom (batchOf l) (T1 ++ Ev.removeFile fid :: T2) = true)
    (h1 : findFile (run (batchOf l) T1) fid = some f₁)
    (hst : f₁.status = Status.uploading) :
    ∃ f', findFile (run (batchOf l) (T1 ++ Ev.removeFile fid :: T2)) fid = some f' ∧
      f'.removed = true ∧ f'.aborted = true ∧ f'.pushedUrl = none ∧ f'.noticed = false := by
  rw [ValidFrom_append, Bool.and_eq_true] at hv
  obtain ⟨hv1, hv2⟩ := hv
  rw [ValidFrom, Bool.and_eq_true] at hv2
  obtain ⟨hv2a, hv2b⟩ := hv2
  have hs1 : StateInv (run (batchOf l) T1) := stateInv_run (stateInv_batchOf hnd) hv1
  have hi := hs1.fileInv f₁ (findFile_mem h1)
  have hrem : f₁.removed = false := by
    simp only [evValid, h1] at hv2a
    simpa using hv2a
  have hset : f₁.settled = false := by
    by_contra h
    rw [Bool.not_eq_false] at h
    rcases hi.settledTerminal hrem h with h' | h' <;> rw [hst] at h' <;> simp at h'
  obtain ⟨hpush, hnot⟩ := hi.unsettledClean hset
  have hid₁ : f₁.id = fid := findFile_eq_id h1
  have hf₂ : findFile (step (run (batchOf l) T1) (Ev.removeFile fid)) fid
      = some (removeG f₁) := by
    simp only [step]
    rw [findFile_stepRemove, h1, Option.map_some', applyAt_hit _ hid₁]
  have hrg : removeG f₁
      = { f₁ with removed := true, aborted := f₁.aborted || f₁.status == Status.uploading } := by
    rw [removeG, if_neg (by rw [hrem]; simp)]
  have habort : (removeG f₁).aborted = true := by
    rw [hrg]
    show (f₁.aborted || (f₁.status == Status.uploading)) = true
    rw [hst]
    simp
  have hrm₂ : (removeG f₁).removed = true := by rw [hrg]
  have hset₂ : (removeG f₁).settled = false := by rw [removeG_settled]; exact hset
  have hpush₂ : (removeG f₁).pushedUrl = none := by rw [removeG_pushed]; exact hpush
  have hnot₂ : (removeG f₁).noticed = false := by rw [removeG_noticed]; exact hnot
  obtain ⟨f', hf', t⟩ := run_track hv2b hf₂
  obtain ⟨_, hpush', hnot', _⟩ := t.aborted_frozen habort
  refine ⟨f', ?_, t.removed_mono hrm₂, t.aborted_mono habort,
    hpush'.trans hpush₂, hnot'.trans hnot₂⟩
  rw [run_append]
  exact hf'

/-- Witness for C7 amended: one file gets a progress event, is cancelled, and
the trace continues with a sibling-free tail. -/
theorem dropzone_cancel_uploading_amended_witness :
    (([("a", "a.jpg", Env.done "u")].map (fun x => x.1)).Nodup) ∧
    ValidFrom (batchOf [("a", "a.jpg", Env.done "u")])
      ([Ev.startBatch, Ev.progress "a" 1 2] ++ Ev.removeFile "a" :: []) = true ∧
    (∃ f', findFile (run (batchOf [("a", "a.jpg", Env.done "u")])
        ([Ev.startBatch, Ev.progress "a" 1 2] ++ Ev.removeFile "a" :: [])) "a" = some f' ∧
      f'.removed = true ∧ f'.aborted = true ∧ f'.pushedUrl = none ∧ f'.noticed = false) :=
  ⟨by decide, by decide,
   dropzone_cancel_uploading_amended [("a", "a.jpg", Env.done "u")]
     [Ev.startBatch, Ev.progress "a" 1 2] [] "a"
     { initFile "a" "a.jpg" (Env.done "u") with
         started := true, status := Status.uploading, uploadProgress := progressValue 1 2 }
     (by decide) (by decide) rfl (by decide)⟩

/-- C8: two same-named files dropped together get ids from
`` `${file.name}-${Date.now()}` `` with the same millisecond timestamp — the
resulting batch has duplicate identifiers, violating the uniqueness
invariant. -/
theorem dropzone_duplicate_ids_same_drop :
    ((onDropAccepted
        [(⟨"a.jpg", "image/jpeg", 100⟩, 1700000000000),
         (⟨"a.jpg", "image/jpeg", 100⟩, 1700000000000)]).map FileWithPreview.id).Nodup
      = False := by
  simp only [eq_iff_iff, iff_false]
  decide

end Uploader

namespace Uploader

/-! ### Behaviour of the string splitting used for key derivation -/

theorem startsWithSeq_append_self (p b : List Char) : startsWithSeq (p ++ b) p = true := by
  induction p with
  | nil => simp only [List.nil_append]; cases b <;> rfl
  | cons c cs ih => simp [startsWithSeq, ih]

theorem findSplit_append (sep a b : List Char) (hsep : sep ≠ [])
    (hpre : ∀ i, i < a.length → startsWithSeq ((a ++ sep ++ b).drop i) sep = false) :
    findSplit sep (a ++ sep ++ b) = some (a, b) := by
  induction a with
  | nil =>
    simp only [List.nil_append]
    cases sep with
    | nil => exact absurd rfl hsep
    | cons c cs =>
      simp only [List.cons_append]
      rw [findSplit]
      have hself := startsWithSeq_append_self (c :: cs) b
      simp only [List.cons_append] at hself
      rw [if_pos hself, List.length_cons, List.drop_succ_cons, List.drop_left]
  | cons c cs ih =>
    have h0 := hpre 0 (by simp)
    simp only [List.cons_append, List.drop] at h0
    simp only [List.cons_append]
    rw [findSplit]
    rw [if_neg (by rw [h0]; simp)]
    have hpre' : ∀ i, i < cs.length → startsWithSeq ((cs ++ sep ++ b).drop i) sep = false := by
      intro i hi
      have := hpre (i + 1) (by simpa using Nat.succ_lt_succ hi)
      simpa [List.cons_append] using this
    have := ih hpre'
    simp only [List.cons_append] at this ⊢
    rw [this]

theorem findSplit_none (sep b : List Char) (_hsep : sep ≠ [])
    (h : ∀ i, i ≤ b.length → startsWithSeq (b.drop i) sep = false) :
    findSplit sep b = none := by
  induction b with
  | nil => rfl
  | cons c cs ih =>
    rw [findSplit]
    rw [if_neg (by have := h 0 (by simp); simp only [List.drop] at this; rw [this]; simp)]
    have h' : ∀ i, i ≤ cs.length → startsWithSeq (cs.drop i) sep = false := by
      intro i hi
      have := h (i + 1) (Nat.succ_le_succ hi)
      simpa using this
    rw [ih h']

theorem splitSepFuel_of_none {sep b : List Char} (fuel : Nat)
    (hb : findSplit sep b = none) : splitSepFuel sep fuel b = [b] := by
  cases fuel with
  | zero => rfl
  | succ k => rw [splitSepFuel, hb]

theorem findSplit_ne_nil {sep s : List Char} {p : List Char × List Char}
    (ha : findSplit sep s = some p) : s ≠ [] := by
  intro h
  rw [h] at ha
  cases ha

theorem splitSep_head {sep s p r : List Char}
    (ha : findSplit sep s = some (p, r)) : (splitSep sep s).get? 0 = some p := by
  rw [splitSep]
  cases hl : s.length with
  | zero => exact absurd (List.length_eq_zero.mp hl) (findSplit_ne_nil ha)
  | succ k => rw [splitSepFuel, ha]; rfl

theorem splitSep_two {sep s a b : List Char}
    (ha : findSplit sep s = some (a, b)) (hb : findSplit sep b = none) :
    splitSep sep s = [a, b] := by
  rw [splitSep]
  cases hl : s.length with
  | zero => exact absurd (List.length_eq_zero.mp hl) (findSplit_ne_nil ha)
  | succ k =>
    rw [splitSepFuel, ha]
    show a :: splitSepFuel sep k b = [a, b]
    rw [splitSepFuel_of_none k hb]

theorem uploadsMark_eq : uploadsMark = '/' :: uploadsDir := by decide

/-- C9 counterexample: a filename containing the delimiter substring
`/uploads/` (legal in the backend's JSON and kept literally in S3 URL paths).
The client's `split('?')[0].split('/uploads/')[1]` truncates at the second
occurrence, so the key it requests a view URL for differs from the storage key
the backend actually signed. -/
theorem derive_key_slash_filename_cex :
    deriveRequestKey (mkUploadURL "http://bkt".data
        (mkStorageKey "17".data "a/uploads/b.jpg".data) "sig".data)
      ≠ mkStorageKey "17".data "a/uploads/b.jpg".data := by decide

/-- C9 amended: the client's derived object key equals the backend's storage
key `uploads/<ts>-<filename>` exactly when the pre-query part of the write URL
contains no `?` and contains the delimiter `/uploads/` only at the single
designated position (neither inside/straddling the host, nor inside
`<ts>-<filename>`). -/
theorem derive_key_amended (host ts fn query : List Char)
    (hq : ∀ i, i < (host ++ uploadsMark ++ (ts ++ '-' :: fn)).length →
      startsWithSeq (((host ++ uploadsMark ++ (ts ++ '-' :: fn)) ++ ['?'] ++ query).drop i) ['?']
        = false)
    (hm : ∀ i, i < host.length →
      startsWithSeq ((host ++ uploadsMark ++ (ts ++ '-' :: fn)).drop i) uploadsMark = false)
    (hr : ∀ i, i ≤ (ts ++ '-' :: fn).length →
      startsWithSeq ((ts ++ '-' :: fn).drop i) uploadsMark = false) :
    deriveRequestKey (mkUploadURL host (mkStorageKey ts fn) query) = mkStorageKey ts fn := by
  have hurl : mkUploadURL host (mkStorageKey ts fn) query
      = (host ++ uploadsMark ++ (ts ++ '-' :: fn)) ++ ['?'] ++ query := by
    rw [mkUploadURL, mkStorageKey, uploadsMark_eq]
    simp [List.append_assoc]
  have h1 : findSplit ['?'] ((host ++ uploadsMark ++ (ts ++ '-' :: fn)) ++ ['?'] ++ query)
      = some (host ++ uploadsMark ++ (ts ++ '-' :: fn), query) :=
    findSplit_append ['?'] _ query (by simp) hq
  have h2a : findSplit uploadsMark (host ++ uploadsMark ++ (ts ++ '-' :: fn))
      = some (host, ts ++ '-' :: fn) :=
    findSplit_append uploadsMark host (ts ++ '-' :: fn) (by decide) hm
  have h2b : findSplit uploadsMark (ts ++ '-' :: fn) = none :=
    findSplit_none uploadsMark (ts ++ '-' :: fn) (by decide) hr
  rw [hurl, deriveRequestKey]
  simp only [jsIndex]
  rw [splitSep_head h1, Option.getD_some, splitSep_two h2a h2b, mkStorageKey]
  simp [List.append_assoc]

/-- Witness for C9 amended at a realistic URL. -/
theorem derive_key_amended_witness :
    (∀ i, i < ("http://bkt".data ++ uploadsMark ++ ("17".data ++ '-' :: "a.jpg".data)).length →
      startsWithSeq ((("http://bkt".data ++ uploadsMark ++ ("17".data ++ '-' :: "a.jpg".data))
          ++ ['?'] ++ "sig".data).drop i) ['?'] = false) ∧
    (∀ i, i < "http://bkt".data.length →
      startsWithSeq (("http://bkt".data ++ uploadsMark
          ++ ("17".data ++ '-' :: "a.jpg".data)).drop i) uploadsMark = false) ∧
    (∀ i, i ≤ ("17".data ++ '-' :: "a.jpg".data).length →
      startsWithSeq (("17".data ++ '-' :: "a.jpg".data).drop i) uploadsMark = false) ∧
    deriveRequestKey (mkUploadURL "http://bkt".data
        (mkStorageKey "17".data "a.jpg".data) "sig".data)
      = mkStorageKey "17".data "a.jpg".data :=
  ⟨by decide, by decide, by decide,
   derive_key_amended "http://bkt".data "17".data "a.jpg".data "sig".data
     (by decide) (by decide) (by decide)⟩

end Uploader

namespace Uploader

/-- C10: when no file of a started batch produced a viewable URL, nothing is
emitted — `onUploadComplete` is never invoked (in particular never with an
empty list) and the dialog stays open; an emitted Upload Result is always
non-empty, and the dialog closes automatically only together with such a
non-empty emission. -/
theorem dropzone_empty_batch_no_result
    (l : List (String × String × Env)) (T : List Ev)
    (hnd : (l.map (fun x => x.1)).Nodup)
    (hv : ValidFrom (batchOf l) T = true) :
    ((∀ f ∈ (run (batchOf l) T).files, f.pushedUrl = none) →
      (run (batchOf l) T).emitted = none ∧ (run (batchOf l) T).dialogOpen = true) ∧
    (∀ u, (run (batchOf l) T).emitted = some u → u ≠ []) ∧
    ((run (batchOf l) T).dialogOpen = false →
      ∃ u, (run (batchOf l) T).emitted = some u ∧ u ≠ []) := by
  have hs := stateInv_run (stateInv_batchOf hnd) hv
  refine ⟨?_, ?_, ?_⟩
  · intro hall
    have hurls : (run (batchOf l) T).uploadedUrls = [] := hs.noPushNoUrls hall
    have hemit : (run (batchOf l) T).emitted = none := by
      cases he : (run (batchOf l) T).emitted with
      | none => rfl
      | some u =>
        obtain ⟨hequ, hne⟩ := hs.emitEqUrls u he
        rw [hurls] at hequ
        exact absurd hequ hne
    refine ⟨hemit, ?_⟩
    by_contra h
    rw [Bool.not_eq_true] at h
    obtain ⟨u, hu⟩ := hs.closedHasEmit h
    rw [hemit] at hu
    exact absurd hu (by simp)
  · intro u hu
    exact (hs.emitEqUrls u hu).2
  · intro h
    obtain ⟨u, hu⟩ := hs.closedHasEmit h
    exact ⟨u, hu, (hs.emitEqUrls u hu).2⟩

/-- Witness for C10: a one-file batch whose transfer gets a non-200 status:
the file ends in `error`, nothing is emitted, the dialog stays open. -/
theorem dropzone_empty_batch_no_result_witness :
    (([("a", "a.jpg", Env.transferBadStatus)].map (fun x => x.1)).Nodup) ∧
    ValidFrom (batchOf [("a", "a.jpg", Env.transferBadStatus)])
      [Ev.startBatch, Ev.settleReject "a"] = true ∧
    (((∀ f ∈ (run (batchOf [("a", "a.jpg", Env.transferBadStatus)])
          [Ev.startBatch, Ev.settleReject "a"]).files, f.pushedUrl = none) →
        (run (batchOf [("a", "a.jpg", Env.transferBadStatus)])
          [Ev.startBatch, Ev.settleReject "a"]).emitted = none ∧
        (run (batchOf [("a", "a.jpg", Env.transferBadStatus)])
          [Ev.startBatch, Ev.settleReject "a"]).dialogOpen = true) ∧
     (∀ u, (run (batchOf [("a", "a.jpg", Env.transferBadStatus)])
          [Ev.startBatch, Ev.settleReject "a"]).emitted = some u → u ≠ []) ∧
     ((run (batchOf [("a", "a.jpg", Env.transferBadStatus)])
          [Ev.startBatch, Ev.settleReject "a"]).dialogOpen = false →
        ∃ u, (run (batchOf [("a", "a.jpg", Env.transferBadStatus)])
          [Ev.startBatch, Ev.settleReject "a"]).emitted = some u ∧ u ≠ [])) :=
  ⟨by decide, by decide,
   dropzone_empty_batch_no_result [("a", "a.jpg", Env.transferBadStatus)]
     [Ev.startBatch, Ev.settleReject "a"] (by decide) (by decide)⟩

end Uploader
